import Mathlib

/-!
Verification of the NowTrain2D real-time train position frontend.

JavaScript strings are modelled as lists of UTF-16 code units (`List Nat`),
and the character operations the code uses (`toUpperCase`, the regex classes
`\d` and `[A-Za-z]`, the separator `":"`) are modelled at the code-unit
level.  `toUpperCase` covers ASCII `a`–`z` plus the two Unicode code points
whose uppercase is a single ASCII letter (U+0131 `ı` → `I`, U+017F `ſ` → `S`)
— the mappings that interact with the regex; multi-unit expansions such as
`ß` → `SS` never produce a digits-then-single-letter tail and are fixed by
the model.  Geographic coordinates are modelled as rationals, which is
faithful for every comparison the code performs (`<`, `Math.min`,
`Math.max`).
-/

namespace NowTrain

/-- Code unit of the character `'0'`. -/
def zeroCU : Nat := 48

/-- Code unit of the character `':'`. -/
def colonCU : Nat := 58

/-- The regex class `\d` (ASCII digits), on code units. -/
def isDigitC (n : Nat) : Prop := 48 ≤ n ∧ n ≤ 57

instance (n : Nat) : Decidable (isDigitC n) := by unfold isDigitC; infer_instance

/-- The regex class `[A-Za-z]` (ASCII letters), on code units. -/
def isAlphaC (n : Nat) : Prop := (65 ≤ n ∧ n ≤ 90) ∨ (97 ≤ n ∧ n ≤ 122)

instance (n : Nat) : Decidable (isAlphaC n) := by unfold isAlphaC; infer_instance

/-- `String.prototype.toUpperCase`, one code unit at a time: ASCII `a`–`z`
plus the two Unicode code points whose uppercase is a single ASCII letter,
U+0131 `ı` → `I` (73) and U+017F `ſ` → `S` (83). -/
def toUpperC (n : Nat) : Nat :=
  if 97 ≤ n ∧ n ≤ 122 then n - 32
  else if n = 305 then 73
  else if n = 383 then 83
  else n

/-- A JavaScript string as its sequence of UTF-16 code units. -/
abbrev JStr := List Nat

/-- Encode a Lean string literal as a JavaScript string (code-unit list). -/
def jstr (s : String) : JStr := s.data.map Char.toNat

/-- Every code unit of the string is ASCII (≤ 127). -/
def isASCIIStr (s : JStr) : Bool := s.all fun c => c ≤ 127

/-- "is not a `':'`", the scanning predicate of `split(":")`. -/
def neColon (a : Nat) : Bool := a ≠ colonCU

/-- `tripId.split(":")[1]`: the segment strictly between the first and the
second `':'` of the string (empty when the first `':'` is final or is
immediately followed by another `':'`). -/
def splitColon1 (s : JStr) : JStr :=
  ((s.dropWhile neColon).drop 1).takeWhile neColon

/-- Step 1 of `extractTrainNumber` (src/unnamed/part_003, lines 21–25):
`let cleaned = tripId; if (tripId.includes(":")) cleaned = tripId.split(":")[1] || tripId;`. -/
def cleanedOf (s : JStr) : JStr :=
  if colonCU ∈ s then (if splitColon1 s = [] then s else splitColon1 s) else s

/-- The regex `/(\d{3,4})([A-Za-z])$/` applied to the REVERSE of the subject
string: a match requires the final character to be a letter preceded by at
least three digits; the leftmost (hence longest, 4-digit) alternative wins
when a fourth digit precedes them.  Returns the captured digit group (in
source order) and the letter. -/
def matchRev : List Nat → Option (JStr × Nat)
  | c :: d1 :: d2 :: d3 :: rest =>
    if isAlphaC c ∧ isDigitC d1 ∧ isDigitC d2 ∧ isDigitC d3 then
      match rest with
      | d4 :: _ => if isDigitC d4 then some ([d4, d3, d2, d1], c) else some ([d3, d2, d1], c)
      | [] => some ([d3, d2, d1], c)
    else none
  | _ => none

/-- `cleaned.match(/(\d{3,4})([A-Za-z])$/)` (src/unnamed/part_003, line 29). -/
def matchTail (s : JStr) : Option (JStr × Nat) := matchRev s.reverse

/-- `String(parseInt(numberPart, 10))` on a group of 3–4 ASCII digits:
drop leading zeros, collapsing an all-zero group to `"0"`
(src/unnamed/part_003, line 35). -/
def stripZeros (ds : JStr) : JStr :=
  if ds.dropWhile (· = zeroCU) = [] then [zeroCU] else ds.dropWhile (· = zeroCU)

/-- `extractTrainNumber` (src/unnamed/part_003, lines 18–41).  The guard
`if (!tripId) return ""` covers the empty string (`null`/`undefined`
arguments are represented by the empty code-unit list as well). -/
def extractTrainNumber (s : JStr) : JStr :=
  if s = [] then []
  else
    match matchTail (cleanedOf s) with
    | some (num, suf) => stripZeros num ++ [toUpperC suf]
    | none => (cleanedOf s).map toUpperC

/-- `isSameTrain` (src/unnamed/part_003, lines 54–58). -/
def isSameTrain (id1 id2 : JStr) : Bool :=
  extractTrainNumber id1 = extractTrainNumber id2 ∧ extractTrainNumber id1 ≠ []

/-! ## Shape stitching (src/unnamed/part_001 lines 53–86, src/frontend/src/App.jsx
of the earlier milestone lines 704–741: the two loops are identical). -/

/-- A polyline vertex `[lon, lat]`.  The JS numbers are modelled as rationals,
which is exact for every operation the stitching loop performs. -/
abbrev Pt := ℚ × ℚ

/-- `arr[0]` on a coordinate array (only ever used on non-empty arrays). -/
def headOf (l : List Pt) : Pt := l.headD (0, 0)

/-- `arr[arr.length - 1]` on a coordinate array (only ever used on non-empty
arrays). -/
def lastOf (l : List Pt) : Pt := l.getLastD (0, 0)

/-- `(a[0] - b[0]) ** 2 + (a[1] - b[1]) ** 2` (part_001 lines 70–73). -/
def sqDist (a b : Pt) : ℚ := (a.1 - b.1) ^ 2 + (a.2 - b.2) ^ 2

/-- The body of the `if (previousEnd)` block (part_001 lines 66–78): with no
previous endpoint the sub-line is kept as is; otherwise it is reversed when
`distLast < distFirst`, where `distFirst`/`distLast` compare the sub-line's
first/last point against `previousEnd`. -/
def orientSub (prevEnd : Option Pt) (sub : List Pt) : List Pt :=
  match prevEnd with
  | none => sub
  | some pe => if sqDist (lastOf sub) pe < sqDist (headOf sub) pe then sub.reverse else sub

/-- The stitching loop of part_001 lines 55–82, with the accumulated
`yamanoteCoords` returned and `previousEnd` threaded as the first argument
(`none` before any non-empty sub-line has been appended).  A sub-line with
no coordinates is skipped (`continue`, line 58); after appending,
`previousEnd` becomes the appended array's last point (line 81). -/
def stitchGo : Option Pt → List (List Pt) → List Pt
  | _, [] => []
  | prevEnd, sub :: rest =>
    if sub = [] then stitchGo prevEnd rest
    else orientSub prevEnd sub ++ stitchGo (some (lastOf (orientSub prevEnd sub))) rest

/-- The whole loop: `previousEnd` starts as `null`. -/
def stitch (subs : List (List Pt)) : List Pt := stitchGo none subs

/-- The orientation rule as the claim words it: reverse the sub-line iff the
squared Euclidean distance from the previous endpoint to the sub-line's last
point is strictly less than to its first point. -/
def orientSpec (pe : Pt) (sub : List Pt) : List Pt :=
  if sqDist pe (lastOf sub) < sqDist pe (headOf sub) then sub.reverse else sub

/-- The stitching algorithm as the claim words it, for the sub-lines after
the first non-empty one. -/
def stitchSpecGo : Pt → List (List Pt) → List Pt
  | _, [] => []
  | pe, sub :: rest =>
    if sub = [] then stitchSpecGo pe rest
    else orientSpec pe sub ++ stitchSpecGo (lastOf (orientSpec pe sub)) rest

/-- The stitching algorithm as the claim words it: the first non-empty
sub-line is appended unchanged, the rest via `stitchSpecGo`; empty sub-lines
are skipped throughout. -/
def stitchSpec : List (List Pt) → List Pt
  | [] => []
  | sub :: rest => if sub = [] then stitchSpec rest else sub ++ stitchSpecGo (lastOf sub) rest

/-! ## Segment-index query (`trains_at`, spec §4.3).

The backend implementing the segment index is not part of src/ (only the
frontend consumers are), so the query contract is modelled from the spec. -/

/-- Modelled from the spec: a segment is a dwell (stopped at a station) or a
motion (between two stations) — §3 "Segment". -/
inductive SegKind where
  | dwell
  | motion
deriving DecidableEq

/-- Modelled from the spec: a segment's half-open time interval
`[t_start, t_end)` in effective seconds (§3); the backend holding these is
missing from src/. -/
structure Segment where
  kind : SegKind
  tStart : Int
  tEnd : Int
deriving DecidableEq

/-- One entry of the `trains_at` answer: the segment and, for motion
segments, the reported progress and the `invalid` tag. -/
structure SegResult where
  seg : Segment
  progress : ℚ
  invalid : Bool
deriving DecidableEq

/-- Clamping into `[0, 1]`. -/
def clamp01 (x : ℚ) : ℚ := max 0 (min 1 x)

/-- Modelled from the spec: "For moving segments,
`progress = (t − t_start) / (t_end − t_start)`, clamped to [0,1]; if
`t_end == t_start` (zero-duration run, timetable degeneracy), return
`progress = 0` and tag the result `invalid`" (§4.3).  The degenerate guard
comes first, so the division is never evaluated there. -/
def segProgress (seg : Segment) (t : Int) : ℚ × Bool :=
  if seg.tEnd = seg.tStart then (0, true)
  else (clamp01 (((t : ℚ) - (seg.tStart : ℚ)) / ((seg.tEnd : ℚ) - (seg.tStart : ℚ))), false)

/-- Modelled from the spec: a segment covers instant `t` when `t` lies in
`[t_start, t_end)`; a zero-duration segment at its own instant is still
reported (it must come back tagged `invalid`). -/
def covers (seg : Segment) (t : Int) : Bool :=
  seg.tStart ≤ t && (t < seg.tEnd || (seg.tEnd = seg.tStart && t = seg.tStart))

/-- Modelled from the spec: `trains_at` returns one result per covering
segment; dwell segments report no progress. -/
def trains_at (segs : List Segment) (t : Int) : List SegResult :=
  (segs.filter (fun s => covers s t)).map fun s =>
    match s.kind with
    | SegKind.motion => ⟨s, (segProgress s t).1, (segProgress s t).2⟩
    | SegKind.dwell => ⟨s, 0, false⟩

/-- A zero-duration motion segment at t = 3, used to witness the degenerate
branch of the `trains_at` progress contract. -/
def segZero : Segment := ⟨SegKind.motion, 3, 3⟩

/-- The `trains_at` answer for `segZero` at its own instant. -/
def resZero : SegResult := ⟨segZero, 0, true⟩

/-! ## Real-time fusion, apply-delays step (spec §4.4 step 4).

The fusion backend is not part of src/, so the offset construction is
modelled from the spec. -/

/-- Modelled from the spec: clamp an offset into `[−600, +7200]` seconds. -/
def clampOffset (d : Int) : Int := max (-600) (min 7200 d)

/-- Modelled from the spec: "unmentioned stops take the offset of the
previous mentioned stop (forward fill)", starting from the implicit zero
offset. -/
def forwardFill : Int → List (Option Int) → List Int
  | _, [] => []
  | prev, none :: rest => prev :: forwardFill prev rest
  | _, some d :: rest => d :: forwardFill d rest

/-- Modelled from the spec: the per-stop base array of length `n`; entry `i`
is the offset written by the last `StopTimeUpdate` addressing stop `i`, or
`none` when the stop is unmentioned. -/
def baseOffsets (n : Nat) (updates : List (Nat × Int)) : List (Option Int) :=
  (List.range n).map fun i => ((updates.filter (fun u => u.1 = i)).getLast?).map Prod.snd

/-- Modelled from the spec: "if a later offset is smaller than an earlier
one, raise it to the earlier value" — every element is raised to the running
maximum `m` of the elements before it. -/
def raiseViolations : Int → List Int → List Int
  | _, [] => []
  | m, x :: xs => max m x :: raiseViolations (max m x) xs

/-- Raising applied to a whole offset array (the first element is its own
baseline). -/
def monotonize : List Int → List Int
  | [] => []
  | x :: xs => x :: raiseViolations x xs

/-- Modelled from the spec: the complete apply-delays step for one matched
trip with `n` stops — forward fill, clamp, then monotone raising. -/
def applyDelays (n : Nat) (updates : List (Nat × Int)) : List Int :=
  monotonize ((forwardFill 0 (baseOffsets n updates)).map clampOffset)

/-- Modelled from the spec: a published `FusedTripSet` carries one offset
array per trip, each built by `applyDelays` from that trip's stop count and
its `StopTimeUpdate` list. -/
def publishFusedTripSet (trips : List (Nat × List (Nat × Int))) : List (List Int) :=
  trips.map fun tr => applyDelays tr.1 tr.2

/-! ## `summarizeLineGeojson` and `initLineDataV2`
    (src/frontend/src/App.jsx lines 53–80 and 403–469). -/

/-- The summary record built by `summarizeLineGeojson` (the `propLineId`
field is not needed by any claim and is omitted). -/
structure GeoSummary where
  featureCount : Nat
  coordCount : Nat
  bbox : Option (ℚ × ℚ × ℚ × ℚ)
deriving DecidableEq

/-- The running min/max fold of App.jsx lines 61–70 over the valid
coordinates; the JS `±Infinity` seeds are modelled by an `Option`
accumulator, which agrees with the JS fold on every non-empty input. -/
def foldBounds (ps : List Pt) : Option (ℚ × ℚ × ℚ × ℚ) :=
  ps.foldl
    (fun acc c =>
      match acc with
      | none => some (c.1, c.2, c.1, c.2)
      | some (mnLng, mnLat, mxLng, mxLat) =>
          some (min mnLng c.1, min mnLat c.2, max mxLng c.1, max mxLat c.2))
    none

/-- `summarizeLineGeojson` (App.jsx lines 53–80).  A GeoJSON input is
modelled as its feature list, each feature as its coordinate-entry list; an
entry is `none` when it is not an array of at least two finite numbers
(lines 62–64), `some (lng, lat)` otherwise.  `bbox` is `null` unless at
least 2 valid coordinates were seen (line 72). -/
def summarizeLineGeojson (features : List (List (Option Pt))) : GeoSummary :=
  { featureCount := features.length
    coordCount := ((features.headD []).filterMap id).length
    bbox :=
      if 2 ≤ ((features.headD []).filterMap id).length then
        foldBounds ((features.headD []).filterMap id)
      else none }

/-- The `railway-line` map source contents after `initLineDataV2`: cleared
at line 429 and only repopulated by the `setData` of line 437. -/
inductive LineSetState where
  | cleared
  | set (features : List (List (Option Pt)))
deriving DecidableEq

/-- The observable outcome of one `initLineDataV2` run. -/
structure InitResult where
  lineData : LineSetState
  fitBounds : Option (ℚ × ℚ × ℚ × ℚ)
  shapesOk : Bool
  stationsData : Option (List Pt)
  stationsOk : Bool
deriving DecidableEq

/-- `initLineDataV2` (App.jsx lines 403–469) as a pure function of the two
fetch outcomes (`none` models a `safeFetchJson` failure or timeout).  The
shapes `try` block throws `SHAPES_INVALID` when `!sum.coordCount || !sum.bbox`
(line 435), leaving the line source cleared and the HUD marked failed; the
stations `try` block (lines 449–464) runs regardless of the shapes outcome. -/
def initLineDataV2 (shapesFetch : Option (List (List (Option Pt))))
    (stationsFetch : Option (List Pt)) : InitResult :=
  let shapesPart : LineSetState × Option (ℚ × ℚ × ℚ × ℚ) × Bool :=
    match shapesFetch with
    | none => (LineSetState.cleared, none, false)
    | some geo =>
        if (summarizeLineGeojson geo).coordCount = 0 ∨ (summarizeLineGeojson geo).bbox = none
        then (LineSetState.cleared, none, false)
        else (LineSetState.set geo, (summarizeLineGeojson geo).bbox, true)
  let stationsPart : Option (List Pt) × Bool :=
    match stationsFetch with
    | none => (none, false)
    | some sts => (some sts, true)
  { lineData := shapesPart.1
    fitBounds := shapesPart.2.1
    shapesOk := shapesPart.2.2
    stationsData := stationsPart.1
    stationsOk := stationsPart.2 }

/-! ## `saveStation` (src/frontend/src/components/AdminPanel.jsx lines 64–96). -/

/-- Bit length of `n` (`⌊log₂ n⌋ + 1` for `n ≥ 1`, `0` for `0`), computed
with a structural fuel argument so that it evaluates inside the kernel; the
caller passes fuel `n + 1 ≥` the bit length. -/
def bitLenAux : Nat → Nat → Nat
  | 0, _ => 0
  | fuel + 1, n => if n = 0 then 0 else bitLenAux fuel (n / 2) + 1

/-- Bit length of a natural number. -/
def bitLen (n : Nat) : Nat := bitLenAux (n + 1) n

/-- Round a natural number to the nearest IEEE-754 binary64 value
(round-half-to-even on a 53-bit significand): `Number.parseInt` returns a
double, so digit strings beyond 2⁵³ lose exactness and values that round to
at least 2¹⁰²⁴ become `Infinity` (`none`), which `Number.isFinite`
rejects. -/
def roundToDouble (n : Nat) : Option Nat :=
  if n < 2 ^ 53 then some n
  else
    let shift := bitLen n - 53
    let q := n / 2 ^ shift
    let r := n % 2 ^ shift
    let q' := if 2 ^ shift < 2 * r ∨ (2 * r = 2 ^ shift ∧ q % 2 = 1) then q + 1 else q
    if q' * 2 ^ shift < 2 ^ 1024 then some (q' * 2 ^ shift) else none

/-- The value `parseInt` reads from the digit prefix: the longest leading
run of ASCII digits interpreted in base 10 and rounded to a double; `none`
when there is no digit (`NaN`) or the value overflows to `Infinity`. -/
def digitsValue (l : List Char) : Option Nat :=
  if l.takeWhile Char.isDigit = [] then none
  else roundToDouble ((l.takeWhile Char.isDigit).foldl (fun a c => 10 * a + (c.toNat - 48)) 0)

/-- `Number.parseInt(s, 10)`: skip leading whitespace, read an optional
sign, then the longest digit prefix; the result is a double, so `none`
covers both `NaN` (no digit) and `±Infinity` (≈309-digit overflow), the two
cases `Number.isFinite` rejects.  (JS also accepts some exotic Unicode
whitespace; the model uses ASCII whitespace, which covers every value the
admin form can produce.) -/
def parseIntJS (s : String) : Option Int :=
  match s.data.dropWhile Char.isWhitespace with
  | '-' :: rest => (digitsValue rest).map fun n => -(n : Int)
  | '+' :: rest => (digitsValue rest).map fun n => (n : Int)
  | t => (digitsValue t).map fun n => (n : Int)

/-- The station row as the admin panel holds it: `rank` and `dwell_time` are
the raw form strings. -/
structure StationForm where
  id : String
  rank : String
  dwell_time : String

/-- What one `saveStation` call does: either it records an error status for
the station and performs no network call, or it issues exactly one
`PUT /api/stations/{id}/rank` with the JSON body `{ rank, dwell_time }`. -/
inductive SaveAction where
  | errorStatus (message : String)
  | putRequest (id : String) (rank : String) (dwell_time : Int)
deriving DecidableEq

/-- `saveStation` (AdminPanel.jsx lines 64–96): parse `dwell_time` with
`Number.parseInt(·, 10)`; if the result is not finite or is negative, set
the error status and return before any network call; otherwise issue the
PUT with the parsed integer.  (The HTTP outcome of the PUT is outside the
model; the claim is about whether and with what payload it is issued.) -/
def saveStation (st : StationForm) : SaveAction :=
  match parseIntJS st.dwell_time with
  | none => SaveAction.errorStatus "dwell_time must be >= 0"
  | some v =>
      if v < 0 then SaveAction.errorStatus "dwell_time must be >= 0"
      else SaveAction.putRequest st.id st.rank v

/-! ## `fetchAndUpdate` (src/frontend/src/App.jsx lines 476–545). -/

/-- A position's `location` object; a coordinate is `none` when it is
absent or not a finite number (`Number.isFinite` fails, line 503). -/
structure Loc where
  latitude : Option ℚ
  longitude : Option ℚ
deriving DecidableEq

/-- One element of the `positions` array of the `/positions/v4` response
(modelled with the fields `fetchAndUpdate` reads). -/
structure Position where
  train_number : String
  location : Option Loc
  status : String
  delay : Option Int
deriving DecidableEq

/-- The marker properties built at lines 510–515. -/
structure TrainProps where
  trainNumber : String
  delaySeconds : Int
  isStopped : Bool
  dataQuality : String
deriving DecidableEq

/-- One value of `trainPositionsRef.current` (line 110). -/
structure TrainEntry where
  current : ℚ × ℚ
  target : ℚ × ℚ
  startTime : ℚ
  props : TrainProps
deriving DecidableEq

/-- `trainPositionsRef.current` as a key-ordered association list (a JS
object with string keys, insertion-ordered). -/
abbrev TrainMap := List (String × TrainEntry)

/-- Lines 501–503: a position takes part in the update only when it has a
`location` with finite latitude and longitude. -/
def qualifies (p : Position) : Bool :=
  match p.location with
  | none => false
  | some loc => loc.latitude.isSome && loc.longitude.isSome

/-- `newTarget = [longitude, latitude]` (line 507; only read when
`qualifies` holds). -/
def targetOf (p : Position) : ℚ × ℚ :=
  match p.location with
  | some loc => (loc.longitude.getD 0, loc.latitude.getD 0)
  | none => (0, 0)

/-- Lines 510–515 (`p.delay || 0`, `p.status === 'stopped'`). -/
def propsOf (p : Position) : TrainProps :=
  { trainNumber := p.train_number
    delaySeconds := p.delay.getD 0
    isStopped := p.status = "stopped"
    dataQuality := "good" }

/-- Lines 517–534: insert a new train at the end of the map, or replace the
existing entry in place with `current := old.target`. -/
def upsertTrain (m : TrainMap) (now : ℚ) (p : Position) : TrainMap :=
  if m.any (fun kv => kv.1 = p.train_number) then
    m.map fun kv =>
      if kv.1 = p.train_number then
        (p.train_number,
          { current := kv.2.target, target := targetOf p, startTime := now,
            props := propsOf p })
      else kv
  else
    m ++ [(p.train_number,
      { current := targetOf p, target := targetOf p, startTime := now,
        props := propsOf p })]

/-- The `filteredPositions.forEach` loop (lines 500–535). -/
def processPositions (m : TrainMap) (now : ℚ) (ps : List Position) : TrainMap :=
  ps.foldl (fun acc p => if qualifies p then upsertTrain acc now p else acc) m

/-- The `activeKeys` set (lines 498, 504–505): the train numbers of the
qualifying filtered positions. -/
def activeKeys (ps : List Position) : List String :=
  (ps.filter qualifies).map (·.train_number)

/-- One whole polling update applied to the train-position map: the forEach
loop, then the deletion sweep of lines 538–540 (`delete` every key not in
`activeKeys`).  `ps` is the already-filtered `filteredPositions` list. -/
def fetchAndUpdate (m : TrainMap) (now : ℚ) (ps : List Position) : TrainMap :=
  (processPositions m now ps).filter fun kv => kv.1 ∈ activeKeys ps

/-! ### Character-level lemmas -/

theorem toUpperC_toUpperC (n : Nat) : toUpperC (toUpperC n) = toUpperC n := by
  simp only [toUpperC]; split_ifs <;> omega

theorem isDigitC_toUpperC (n : Nat) : isDigitC (toUpperC n) ↔ isDigitC n := by
  simp only [isDigitC, toUpperC]; split_ifs <;> omega

theorem isAlphaC_toUpperC_of {n : Nat} (h : isAlphaC n) : isAlphaC (toUpperC n) := by
  simp only [isAlphaC, toUpperC] at *; split_ifs <;> omega

theorem isAlphaC_toUpperC_ascii {n : Nat} (hn : n ≤ 127) :
    isAlphaC (toUpperC n) ↔ isAlphaC n := by
  simp only [isAlphaC, toUpperC]; split_ifs <;> omega

theorem toUpperC_eq_colon_iff (n : Nat) : toUpperC n = colonCU ↔ n = colonCU := by
  simp only [toUpperC, colonCU]; split_ifs <;> omega

theorem isDigitC_ne_colon {d : Nat} (h : isDigitC d) : d ≠ colonCU := by
  simp only [isDigitC, colonCU] at *; omega

theorem isAlphaC_ne_colon {d : Nat} (h : isAlphaC d) : d ≠ colonCU := by
  simp only [isAlphaC, colonCU] at *; omega

theorem toUpperC_digit {d : Nat} (h : isDigitC d) : toUpperC d = d := by
  simp only [isDigitC] at h; simp only [toUpperC]; split_ifs <;> omega

theorem neColon_comp_toUpperC : neColon ∘ toUpperC = neColon := by
  funext a
  simp only [neColon, Function.comp_apply, decide_eq_decide]
  exact not_congr (toUpperC_eq_colon_iff a)

theorem map_toUpperC_idem (l : JStr) : (l.map toUpperC).map toUpperC = l.map toUpperC := by
  induction l with
  | nil => rfl
  | cons a t ih => simp [toUpperC_toUpperC, ih]

/-! ### Cleaning-step lemmas -/

theorem splitColon1_map (s : JStr) :
    splitColon1 (s.map toUpperC) = (splitColon1 s).map toUpperC := by
  unfold splitColon1
  rw [List.dropWhile_map, neColon_comp_toUpperC, ← List.map_drop, List.takeWhile_map,
    neColon_comp_toUpperC]

theorem mem_colon_map (s : JStr) : colonCU ∈ s.map toUpperC ↔ colonCU ∈ s := by
  simp only [List.mem_map]
  constructor
  · rintro ⟨a, ha, h⟩
    rw [toUpperC_eq_colon_iff] at h
    exact h ▸ ha
  · intro h
    exact ⟨colonCU, h, by simp [toUpperC, colonCU]⟩

theorem colon_not_mem_splitColon1 (s : JStr) : colonCU ∉ splitColon1 s := by
  intro h
  have := List.mem_takeWhile_imp h
  simp [neColon] at this

theorem splitColon1_sublist (s : JStr) : (splitColon1 s).Sublist s := by
  unfold splitColon1
  exact (List.takeWhile_sublist _).trans
    ((List.drop_sublist _ _).trans (List.dropWhile_sublist _))

theorem cleanedOf_subset {s : JStr} {c : Nat} (h : c ∈ cleanedOf s) : c ∈ s := by
  unfold cleanedOf at h
  split_ifs at h with h1 h2
  · exact h
  · exact (splitColon1_sublist s).subset h
  · exact h

theorem cleanedOf_ne_nil {s : JStr} (h : s ≠ []) : cleanedOf s ≠ [] := by
  unfold cleanedOf
  split_ifs with h1 h2
  · exact h
  · exact h2
  · exact h

theorem cleanedOf_idem (s : JStr) : cleanedOf (cleanedOf s) = cleanedOf s := by
  by_cases h1 : colonCU ∈ s
  · by_cases h2 : splitColon1 s = []
    · have hs : cleanedOf s = s := by unfold cleanedOf; rw [if_pos h1, if_pos h2]
      rw [hs, hs]
    · have hs : cleanedOf s = splitColon1 s := by unfold cleanedOf; rw [if_pos h1, if_neg h2]
      rw [hs]
      unfold cleanedOf
      rw [if_neg (colon_not_mem_splitColon1 s)]
  · have hs : cleanedOf s = s := by unfold cleanedOf; rw [if_neg h1]
    rw [hs, hs]

theorem cleanedOf_map (s : JStr) :
    cleanedOf (s.map toUpperC) = (cleanedOf s).map toUpperC := by
  by_cases h1 : colonCU ∈ s
  · have h1' : colonCU ∈ s.map toUpperC := (mem_colon_map s).mpr h1
    by_cases h2 : splitColon1 s = []
    · have h2' : splitColon1 (s.map toUpperC) = [] := by rw [splitColon1_map, h2]; rfl
      unfold cleanedOf
      rw [if_pos h1', if_pos h2', if_pos h1, if_pos h2]
    · have h2' : splitColon1 (s.map toUpperC) ≠ [] := by
        rw [splitColon1_map]
        simpa [List.map_eq_nil_iff] using h2
      unfold cleanedOf
      rw [if_pos h1', if_neg h2', if_pos h1, if_neg h2, splitColon1_map]
  · have h1' : colonCU ∉ s.map toUpperC := fun hh => h1 ((mem_colon_map s).mp hh)
    unfold cleanedOf
    rw [if_neg h1', if_neg h1]

/-! ### Regex-match lemmas -/

theorem matchRev_cons_nil_eq (c d1 d2 d3 : Nat) :
    matchRev [c, d1, d2, d3] =
      if isAlphaC c ∧ isDigitC d1 ∧ isDigitC d2 ∧ isDigitC d3 then
        some ([d3, d2, d1], c)
      else none := rfl

theorem matchRev_cons_cons_eq (c d1 d2 d3 d4 : Nat) (r : List Nat) :
    matchRev (c :: d1 :: d2 :: d3 :: d4 :: r) =
      if isAlphaC c ∧ isDigitC d1 ∧ isDigitC d2 ∧ isDigitC d3 then
        (if isDigitC d4 then some ([d4, d3, d2, d1], c) else some ([d3, d2, d1], c))
      else none := rfl

theorem matchRev_map_none : ∀ {l : List Nat}, (∀ c ∈ l, c ≤ 127) → matchRev l = none →
    matchRev (l.map toUpperC) = none
  | [], _, _ => rfl
  | [_], _, _ => rfl
  | [_, _], _, _ => rfl
  | [_, _, _], _, _ => rfl
  | c :: d1 :: d2 :: d3 :: rest, hl, h => by
    have hup : ¬(isAlphaC c ∧ isDigitC d1 ∧ isDigitC d2 ∧ isDigitC d3) →
        ¬(isAlphaC (toUpperC c) ∧ isDigitC (toUpperC d1) ∧ isDigitC (toUpperC d2) ∧
          isDigitC (toUpperC d3)) := by
      intro hC hc'
      exact hC ⟨(isAlphaC_toUpperC_ascii (hl c (by simp))).mp hc'.1,
        (isDigitC_toUpperC d1).mp hc'.2.1,
        (isDigitC_toUpperC d2).mp hc'.2.2.1, (isDigitC_toUpperC d3).mp hc'.2.2.2⟩
    cases rest with
    | nil =>
      rw [matchRev_cons_nil_eq] at h
      simp only [List.map_cons, List.map_nil]
      rw [matchRev_cons_nil_eq]
      by_cases hC : isAlphaC c ∧ isDigitC d1 ∧ isDigitC d2 ∧ isDigitC d3
      · rw [if_pos hC] at h
        exact absurd h (by simp)
      · rw [if_neg (hup hC)]
    | cons d4 r =>
      rw [matchRev_cons_cons_eq] at h
      simp only [List.map_cons]
      rw [matchRev_cons_cons_eq]
      by_cases hC : isAlphaC c ∧ isDigitC d1 ∧ isDigitC d2 ∧ isDigitC d3
      · rw [if_pos hC] at h
        by_cases hd : isDigitC d4
        · rw [if_pos hd] at h
          exact absurd h (by simp)
        · rw [if_neg hd] at h
          exact absurd h (by simp)
      · rw [if_neg (hup hC)]

theorem matchRev_some : ∀ {l : List Nat} {num : JStr} {suf : Nat},
    matchRev l = some (num, suf) →
    (num.length = 3 ∨ num.length = 4) ∧ (∀ d ∈ num, isDigitC d) ∧ isAlphaC suf
  | [], _, _, h => by exact absurd h (by simp [matchRev])
  | [_], _, _, h => by exact absurd h (by simp [matchRev])
  | [_, _], _, _, h => by exact absurd h (by simp [matchRev])
  | [_, _, _], _, _, h => by exact absurd h (by simp [matchRev])
  | c :: d1 :: d2 :: d3 :: rest, num, suf, h => by
    cases rest with
    | nil =>
      rw [matchRev_cons_nil_eq] at h
      by_cases hC : isAlphaC c ∧ isDigitC d1 ∧ isDigitC d2 ∧ isDigitC d3
      · rw [if_pos hC] at h
        obtain ⟨ha, hd1, hd2, hd3⟩ := hC
        simp only [Option.some.injEq, Prod.mk.injEq] at h
        obtain ⟨hnum, hsuf⟩ := h
        subst hnum; subst hsuf
        refine ⟨Or.inl (by simp), ?_, ha⟩
        intro d hd
        simp only [List.mem_cons, List.not_mem_nil, or_false] at hd
        rcases hd with rfl | rfl | rfl
        · exact hd3
        · exact hd2
        · exact hd1
      · rw [if_neg hC] at h
        exact absurd h (by simp)
    | cons d4 r =>
      rw [matchRev_cons_cons_eq] at h
      by_cases hC : isAlphaC c ∧ isDigitC d1 ∧ isDigitC d2 ∧ isDigitC d3
      · rw [if_pos hC] at h
        obtain ⟨ha, hd1, hd2, hd3⟩ := hC
        by_cases hd4 : isDigitC d4
        · rw [if_pos hd4] at h
          simp only [Option.some.injEq, Prod.mk.injEq] at h
          obtain ⟨hnum, hsuf⟩ := h
          subst hnum; subst hsuf
          refine ⟨Or.inr (by simp), ?_, ha⟩
          intro d hd
          simp only [List.mem_cons, List.not_mem_nil, or_false] at hd
          rcases hd with rfl | rfl | rfl | rfl
          · exact hd4
          · exact hd3
          · exact hd2
          · exact hd1
        · rw [if_neg hd4] at h
          simp only [Option.some.injEq, Prod.mk.injEq] at h
          obtain ⟨hnum, hsuf⟩ := h
          subst hnum; subst hsuf
          refine ⟨Or.inl (by simp), ?_, ha⟩
          intro d hd
          simp only [List.mem_cons, List.not_mem_nil, or_false] at hd
          rcases hd with rfl | rfl | rfl
          · exact hd3
          · exact hd2
          · exact hd1
      · rw [if_neg hC] at h
        exact absurd h (by simp)

theorem matchTail_map_none {s : JStr} (hs : ∀ c ∈ s, c ≤ 127) (h : matchTail s = none) :
    matchTail (s.map toUpperC) = none := by
  unfold matchTail at h ⊢
  rw [← List.map_reverse]
  exact matchRev_map_none (fun c hc => hs c (List.mem_reverse.mp hc)) h

/-! ### parseInt / leading-zero lemmas -/

theorem stripZeros_ne_nil (ds : JStr) : stripZeros ds ≠ [] := by
  unfold stripZeros
  split_ifs with h
  · simp
  · exact h

theorem stripZeros_idem (ds : JStr) : stripZeros (stripZeros ds) = stripZeros ds := by
  by_cases h : ds.dropWhile (· = zeroCU) = []
  · have h1 : stripZeros ds = [zeroCU] := by unfold stripZeros; rw [if_pos h]
    rw [h1]
    decide
  · have h1 : stripZeros ds = ds.dropWhile (· = zeroCU) := by unfold stripZeros; rw [if_neg h]
    rw [h1]
    unfold stripZeros
    rw [List.dropWhile_idempotent, if_neg h]

theorem mem_stripZeros_digit {ds : JStr} (hds : ∀ d ∈ ds, isDigitC d) :
    ∀ d ∈ stripZeros ds, isDigitC d := by
  unfold stripZeros
  split_ifs with h
  · intro d hd
    simp only [List.mem_singleton] at hd
    subst hd
    simp [isDigitC, zeroCU]
  · intro d hd
    exact hds d ((List.dropWhile_sublist _).subset hd)

theorem length_stripZeros_le {ds : JStr} (h : ds ≠ []) :
    (stripZeros ds).length ≤ ds.length := by
  unfold stripZeros
  split_ifs with h0
  · simpa using List.length_pos.mpr h
  · exact (List.dropWhile_sublist _).length_le

/-! ### Unfolding equations for `extractTrainNumber` -/

theorem extractTrainNumber_eq_of_match {s : JStr} {num : JStr} {suf : Nat} (hs : s ≠ [])
    (h : matchTail (cleanedOf s) = some (num, suf)) :
    extractTrainNumber s = stripZeros num ++ [toUpperC suf] := by
  unfold extractTrainNumber
  rw [if_neg hs, h]

theorem extractTrainNumber_eq_of_none {s : JStr} (hs : s ≠ [])
    (h : matchTail (cleanedOf s) = none) :
    extractTrainNumber s = (cleanedOf s).map toUpperC := by
  unfold extractTrainNumber
  rw [if_neg hs, h]

/-- Every string of 1–4 digits followed by an already-uppercased letter is a
fixed point of `extractTrainNumber`, provided the digit part carries no
leading zero (is itself `stripZeros`-fixed). -/
theorem extractTrainNumber_append_fix {z : JStr} {U : Nat}
    (hzd : ∀ d ∈ z, isDigitC d) (hzne : z ≠ []) (hzlen : z.length ≤ 4)
    (hzfix : stripZeros z = z) (hUa : isAlphaC U) (hUfix : toUpperC U = U) :
    extractTrainNumber (z ++ [U]) = z ++ [U] := by
  have hne : z ++ [U] ≠ [] := by simp
  have hnc : colonCU ∉ z ++ [U] := by
    intro hmem
    rcases List.mem_append.mp hmem with hmz | hmU
    · exact isDigitC_ne_colon (hzd _ hmz) rfl
    · have hcu : colonCU = U := by simpa using hmU
      exact isAlphaC_ne_colon hUa hcu.symm
  have hclean : cleanedOf (z ++ [U]) = z ++ [U] := by
    unfold cleanedOf
    rw [if_neg hnc]
  rcases z with _ | ⟨a, z1⟩
  · exact absurd rfl hzne
  rcases z1 with _ | ⟨b, z2⟩
  · have hmt : matchTail ([a] ++ [U]) = none := rfl
    rw [extractTrainNumber_eq_of_none hne (by rw [hclean]; exact hmt), hclean]
    simp [toUpperC_digit (hzd a (by simp)), hUfix]
  rcases z2 with _ | ⟨c, z3⟩
  · have hmt : matchTail ([a, b] ++ [U]) = none := rfl
    rw [extractTrainNumber_eq_of_none hne (by rw [hclean]; exact hmt), hclean]
    simp [toUpperC_digit (hzd a (by simp)), toUpperC_digit (hzd b (by simp)), hUfix]
  rcases z3 with _ | ⟨d, z4⟩
  · have hmt : matchTail ([a, b, c] ++ [U]) = some ([a, b, c], U) := by
      show matchRev [U, c, b, a] = some ([a, b, c], U)
      rw [matchRev_cons_nil_eq,
        if_pos ⟨hUa, hzd c (by simp), hzd b (by simp), hzd a (by simp)⟩]
    rw [extractTrainNumber_eq_of_match hne (by rw [hclean]; exact hmt), hzfix, hUfix]
  · have hz4 : z4 = [] := by
      have hlen := hzlen
      simp only [List.length_cons] at hlen
      have : z4.length = 0 := by omega
      exact List.length_eq_zero.mp this
    subst hz4
    have hmt : matchTail ([a, b, c, d] ++ [U]) = some ([a, b, c, d], U) := by
      show matchRev [U, d, c, b, a] = some ([a, b, c, d], U)
      rw [matchRev_cons_cons_eq,
        if_pos ⟨hUa, hzd d (by simp), hzd c (by simp), hzd b (by simp)⟩,
        if_pos (hzd a (by simp))]
    rw [extractTrainNumber_eq_of_match hne (by rw [hclean]; exact hmt), hzfix, hUfix]

/-! ### Claim C1: the normalization examples.

The code's regex `/(\d{3,4})([A-Za-z])$/` uses leftmost-match semantics with
a greedy quantifier, so on `"1111406H"` the match starts four digits before
the final letter and captures `"1406"`.  The function therefore returns
`"1406H"`, while the function's own doc comment (src/unnamed/part_003,
lines 13 and 51) and the spec both state `"406H"`. -/

/-- C1: evaluating `extractTrainNumber` at the failing input `"1:1111406H"`:
the code yields `"1406H"`, not the `"406H"` promised by the spec and by the
function's own `@example` documentation (the other two documented examples
do hold). -/
theorem extractTrainNumber_C1_code_bug :
    extractTrainNumber (jstr "1:1111406H") = jstr "1406H" ∧
      jstr "1406H" ≠ jstr "406H" ∧
      extractTrainNumber (jstr "4200406H") = jstr "406H" ∧
      extractTrainNumber (jstr "42000906G") = jstr "906G" := by
  refine ⟨by decide, by decide, by decide, by decide⟩

/-- C2 counterexample: idempotence fails on `"0123ı"` — the fallback branch
upper-cases U+0131 `ı` to the ASCII letter `I`, so the output `"0123I"`
newly matches the regex and a second application strips the leading zero. -/
theorem extractTrainNumber_not_idempotent :
    extractTrainNumber (jstr "0123ı") = jstr "0123I" ∧
      extractTrainNumber (extractTrainNumber (jstr "0123ı")) = jstr "123I" ∧
      extractTrainNumber (extractTrainNumber (jstr "0123ı")) ≠
        extractTrainNumber (jstr "0123ı") := by
  refine ⟨by decide, by decide, by decide⟩

/-- C2 (amended): `extractTrainNumber` is idempotent on every input whose
code units are all ASCII — applying it to its own output (whether produced
by the regex branch or by the upper-cased fallback branch) returns that
output unchanged.  Full generality fails because `toUpperCase` maps U+0131
`ı` and U+017F `ſ` into `A`–`Z`. -/
theorem extractTrainNumber_idempotent_ascii (s : JStr) (hascii : isASCIIStr s = true) :
    extractTrainNumber (extractTrainNumber s) = extractTrainNumber s := by
  have hsa : ∀ c ∈ s, c ≤ 127 := by
    intro c hc
    have := List.all_eq_true.mp hascii c hc
    simpa using this
  by_cases hs : s = []
  · subst hs; rfl
  · have hca : ∀ c ∈ cleanedOf s, c ≤ 127 := fun c hc => hsa c (cleanedOf_subset hc)
    cases h : matchTail (cleanedOf s) with
    | none =>
      rw [extractTrainNumber_eq_of_none hs h]
      have hcne : cleanedOf s ≠ [] := cleanedOf_ne_nil hs
      have hne : (cleanedOf s).map toUpperC ≠ [] := by
        simpa [List.map_eq_nil_iff] using hcne
      have hclean2 : cleanedOf ((cleanedOf s).map toUpperC) = (cleanedOf s).map toUpperC := by
        rw [cleanedOf_map, cleanedOf_idem]
      have hm2 : matchTail ((cleanedOf s).map toUpperC) = none := matchTail_map_none hca h
      rw [extractTrainNumber_eq_of_none hne (by rw [hclean2]; exact hm2), hclean2]
      exact map_toUpperC_idem _
    | some p =>
      obtain ⟨num, suf⟩ := p
      rw [extractTrainNumber_eq_of_match hs h]
      unfold matchTail at h
      obtain ⟨hlen, hdig, halpha⟩ := matchRev_some h
      have hnumne : num ≠ [] := by
        intro hnil
        rw [hnil] at hlen
        simp at hlen
      apply extractTrainNumber_append_fix
      · exact mem_stripZeros_digit hdig
      · exact stripZeros_ne_nil num
      · calc (stripZeros num).length ≤ num.length := length_stripZeros_le hnumne
          _ ≤ 4 := by rcases hlen with h3 | h4 <;> omega
      · exact stripZeros_idem num
      · exact isAlphaC_toUpperC_of halpha
      · exact toUpperC_toUpperC suf

/-- Witness for the amended C2 at a concrete ASCII input. -/
theorem extractTrainNumber_idempotent_ascii_witness :
    isASCIIStr (jstr "1:1111406H") = true ∧
      extractTrainNumber (extractTrainNumber (jstr "1:1111406H")) =
        extractTrainNumber (jstr "1:1111406H") :=
  ⟨by decide, extractTrainNumber_idempotent_ascii (jstr "1:1111406H") (by decide)⟩

/-- C9: `isSameTrain` is symmetric, and it returns `false` whenever either
argument normalizes to the empty train number (in particular for empty /
absent identifiers), even if both arguments normalize to `""`. -/
theorem isSameTrain_symm_and_ne_empty (id1 id2 : JStr) :
    isSameTrain id1 id2 = isSameTrain id2 id1 ∧
      ((extractTrainNumber id1 = [] ∨ extractTrainNumber id2 = []) →
        isSameTrain id1 id2 = false) := by
  constructor
  · unfold isSameTrain
    by_cases h : extractTrainNumber id1 = extractTrainNumber id2
    · rw [h]
    · have h' : ¬(extractTrainNumber id2 = extractTrainNumber id1) := fun hh => h hh.symm
      simp [h, h']
  · intro hor
    unfold isSameTrain
    rcases hor with h1 | h2
    · simp [h1]
    · by_cases h : extractTrainNumber id1 = extractTrainNumber id2
      · simp [h, h2]
      · simp [h]

/-- Witness for C9 at concrete inputs: symmetry on the documented pair, and
`isSameTrain "" "" = false` even though both sides normalize to `""`. -/
theorem isSameTrain_symm_and_ne_empty_witness :
    isSameTrain (jstr "") (jstr "") = false ∧
      isSameTrain (jstr "1:1111406H") (jstr "4200406H") =
        isSameTrain (jstr "4200406H") (jstr "1:1111406H") := by
  constructor
  · exact (isSameTrain_symm_and_ne_empty (jstr "") (jstr "")).2 (Or.inl (by decide))
  · exact (isSameTrain_symm_and_ne_empty (jstr "1:1111406H") (jstr "4200406H")).1

example : extractTrainNumber (jstr "1:1111406H") = jstr "1406H" := by decide
example : extractTrainNumber (jstr "4200406H") = jstr "406H" := by decide
example : extractTrainNumber (jstr "42000906G") = jstr "906G" := by decide
example : extractTrainNumber (jstr "4201301G") = jstr "1301G" := by decide
example : extractTrainNumber (jstr "1:2:406H") = jstr "2" := by decide
example : extractTrainNumber (jstr "abc") = jstr "ABC" := by decide
example : extractTrainNumber (jstr "") = jstr "" := by decide

/-! ### Shape stitching lemmas -/

theorem sqDist_comm (a b : Pt) : sqDist a b = sqDist b a := by
  unfold sqDist; ring

theorem orientSub_some_eq (pe : Pt) (sub : List Pt) :
    orientSub (some pe) sub = orientSpec pe sub := by
  show (if sqDist (lastOf sub) pe < sqDist (headOf sub) pe then sub.reverse else sub) = _
  unfold orientSpec
  rw [sqDist_comm (lastOf sub) pe, sqDist_comm (headOf sub) pe]

theorem stitchGo_some_eq_spec (subs : List (List Pt)) : ∀ pe : Pt,
    stitchGo (some pe) subs = stitchSpecGo pe subs := by
  induction subs with
  | nil => intro pe; rfl
  | cons sub rest ih =>
    intro pe
    by_cases h : sub = []
    · simp only [stitchGo, stitchSpecGo, if_pos h]
      exact ih pe
    · simp only [stitchGo, stitchSpecGo, if_neg h, orientSub_some_eq]
      rw [ih]

theorem orientSub_perm (prevEnd : Option Pt) (sub : List Pt) :
    (orientSub prevEnd sub).Perm sub := by
  cases prevEnd with
  | none => exact List.Perm.refl sub
  | some pe =>
    show (if sqDist (lastOf sub) pe < sqDist (headOf sub) pe then sub.reverse else sub).Perm sub
    split
    · exact List.reverse_perm sub
    · exact List.Perm.refl sub

theorem stitchGo_perm_flatten (subs : List (List Pt)) : ∀ pe : Option Pt,
    (stitchGo pe subs).Perm subs.flatten := by
  induction subs with
  | nil => intro pe; exact List.Perm.refl _
  | cons sub rest ih =>
    intro pe
    by_cases h : sub = []
    · simp only [stitchGo, if_pos h, h, List.flatten_cons, List.nil_append]
      exact ih pe
    · simp only [stitchGo, if_neg h, List.flatten_cons]
      exact List.Perm.append (orientSub_perm pe sub) (ih _)

/-- C3: the stitching loop walks the sub-lines in order maintaining the last
endpoint seen; the first non-empty sub-line is appended unchanged, every
subsequent one is reversed iff the squared distance from the previous
endpoint to its last point is strictly below the squared distance to its
first point, and the result is the concatenation of the oriented sub-lines,
empty ones skipped. -/
theorem stitch_eq_claimed_algorithm (subs : List (List Pt)) :
    stitch subs = stitchSpec subs := by
  unfold stitch
  induction subs with
  | nil => rfl
  | cons sub rest ih =>
    by_cases h : sub = []
    · simp only [stitchGo, stitchSpec, if_pos h]
      exact ih
    · simp only [stitchGo, stitchSpec, if_neg h]
      rw [show orientSub none sub = sub from rfl, stitchGo_some_eq_spec]

/-- C4: stitching is orientation-invariant at the level of vertex sets — if
each input sub-line is independently kept or reversed, every vertex of the
stitched polyline of one input is a vertex of the stitched polyline of the
other. -/
theorem stitch_orientation_invariant {subs subs' : List (List Pt)}
    (h : List.Forall₂ (fun a b => b = a ∨ b = a.reverse) subs subs') (v : Pt) :
    v ∈ stitch subs' ↔ v ∈ stitch subs := by
  have hj : (subs'.flatten).Perm subs.flatten := by
    induction h with
    | nil => exact List.Perm.refl _
    | @cons a b as bs hab htail ih =>
      simp only [List.flatten_cons]
      refine List.Perm.append ?_ ih
      rcases hab with rfl | rfl
      · exact List.Perm.refl _
      · exact List.reverse_perm a
  exact ((stitchGo_perm_flatten subs' none).trans
    (hj.trans (stitchGo_perm_flatten subs none).symm)).mem_iff

/-- Witness for C4: a two-sub-line shape with both sub-lines fed in reversed
orientation yields the same vertex membership for the vertex `(1, 0)`. -/
theorem stitch_orientation_invariant_witness :
    (((1 : ℚ), (0 : ℚ)) ∈
        stitch [[((1 : ℚ), (0 : ℚ)), ((0 : ℚ), (0 : ℚ))], [((1 : ℚ), (0 : ℚ)), ((2 : ℚ), (0 : ℚ))]]) ↔
      (((1 : ℚ), (0 : ℚ)) ∈
        stitch [[((0 : ℚ), (0 : ℚ)), ((1 : ℚ), (0 : ℚ))], [((2 : ℚ), (0 : ℚ)), ((1 : ℚ), (0 : ℚ))]]) :=
  @stitch_orientation_invariant
    [[((0 : ℚ), (0 : ℚ)), ((1 : ℚ), (0 : ℚ))], [((2 : ℚ), (0 : ℚ)), ((1 : ℚ), (0 : ℚ))]]
    [[((1 : ℚ), (0 : ℚ)), ((0 : ℚ), (0 : ℚ))], [((1 : ℚ), (0 : ℚ)), ((2 : ℚ), (0 : ℚ))]]
    (List.Forall₂.cons (Or.inr rfl) (List.Forall₂.cons (Or.inr rfl) List.Forall₂.nil))
    ((1 : ℚ), (0 : ℚ))

/-! ### `trains_at` progress (C5) -/

theorem clamp01_nonneg (x : ℚ) : 0 ≤ clamp01 x := le_max_left 0 _

theorem clamp01_le_one (x : ℚ) : clamp01 x ≤ 1 := max_le (by norm_num) (min_le_left 1 x)

theorem segProgress_eq_of_eq (s : Segment) (t : Int) (h : s.tEnd = s.tStart) :
    segProgress s t = (0, true) := by
  unfold segProgress
  rw [if_pos h]

theorem segProgress_eq_of_ne (s : Segment) (t : Int) (h : ¬s.tEnd = s.tStart) :
    segProgress s t =
      (clamp01 (((t : ℚ) - (s.tStart : ℚ)) / ((s.tEnd : ℚ) - (s.tStart : ℚ))), false) := by
  unfold segProgress
  rw [if_neg h]

/-- C5: every motion segment returned by `trains_at` reports progress equal
to `(t − t_start) / (t_end − t_start)` clamped to `[0, 1]`; when
`t_end = t_start` the guard fires before any division, progress is `0` and
the result is tagged invalid, so the computation is total at every segment
endpoint. -/
theorem trains_at_progress (segs : List Segment) (t : Int) (r : SegResult)
    (hr : r ∈ trains_at segs t) (hk : r.seg.kind = SegKind.motion) :
    (r.seg.tEnd = r.seg.tStart → r.progress = 0 ∧ r.invalid = true) ∧
    (r.seg.tEnd ≠ r.seg.tStart →
      r.progress =
        clamp01 (((t : ℚ) - (r.seg.tStart : ℚ)) / ((r.seg.tEnd : ℚ) - (r.seg.tStart : ℚ))) ∧
      r.invalid = false) ∧
    0 ≤ r.progress ∧ r.progress ≤ 1 := by
  unfold trains_at at hr
  obtain ⟨s, hs, rfl⟩ := List.mem_map.mp hr
  cases hsk : s.kind with
  | dwell => simp [hsk] at hk
  | motion =>
    simp only [hsk] at hk ⊢
    by_cases hz : s.tEnd = s.tStart
    · rw [segProgress_eq_of_eq s t hz]
      refine ⟨fun _ => ⟨rfl, rfl⟩, fun hne => absurd hz hne, le_refl 0, by norm_num⟩
    · rw [segProgress_eq_of_ne s t hz]
      exact ⟨fun heq => absurd heq hz, fun _ => ⟨rfl, rfl⟩, clamp01_nonneg _, clamp01_le_one _⟩

/-- Witness for C5: the zero-duration motion segment `segZero` queried at
its own instant is returned with progress 0 and the invalid tag. -/
theorem trains_at_progress_witness :
    (resZero.seg.tEnd = resZero.seg.tStart → resZero.progress = 0 ∧ resZero.invalid = true) ∧
    (resZero.seg.tEnd ≠ resZero.seg.tStart →
      resZero.progress =
        clamp01 ((((3 : Int) : ℚ) - (resZero.seg.tStart : ℚ)) /
          ((resZero.seg.tEnd : ℚ) - (resZero.seg.tStart : ℚ))) ∧
      resZero.invalid = false) ∧
    0 ≤ resZero.progress ∧ resZero.progress ≤ 1 :=
  trains_at_progress [segZero] 3 resZero (by decide) rfl

/-! ### FusedTripSet offset monotonicity (C6) -/

theorem chain_raiseViolations (xs : List Int) : ∀ m : Int,
    List.Chain (· ≤ ·) m (raiseViolations m xs) := by
  induction xs with
  | nil => intro m; exact List.Chain.nil
  | cons x xs ih => intro m; exact List.Chain.cons (le_max_left m x) (ih (max m x))

theorem pairwise_monotonize (l : List Int) : List.Pairwise (· ≤ ·) (monotonize l) := by
  cases l with
  | nil => exact List.Pairwise.nil
  | cons x xs => exact List.chain'_iff_pairwise.mp (chain_raiseViolations xs x)

/-- C6: in every published `FusedTripSet`, each trip's per-stop delay-offset
array is monotone non-decreasing along the trip's stop order (every later
offset that would be smaller has been raised to the running maximum). -/
theorem fusedTripSet_offsets_monotone (trips : List (Nat × List (Nat × Int)))
    (offs : List Int) (h : offs ∈ publishFusedTripSet trips) :
    List.Pairwise (· ≤ ·) offs := by
  unfold publishFusedTripSet at h
  obtain ⟨tr, htr, rfl⟩ := List.mem_map.mp h
  exact pairwise_monotonize _

/-- Witness for C6: a trip of 3 stops whose update delays stop 1 by 100 s
and stop 2 by only 50 s publishes a monotone offset array. -/
theorem fusedTripSet_offsets_monotone_witness :
    List.Pairwise (· ≤ ·) (applyDelays 3 [(1, 100), (2, 50)]) :=
  fusedTripSet_offsets_monotone [(3, [(1, 100), (2, 50)])] _
    (List.mem_singleton.mpr rfl)

/-! ### Shape-invalid handling (C7) -/

/-- C7: with fewer than 2 valid coordinates, `summarizeLineGeojson` reports
a `null` bbox, `initLineDataV2` leaves the railway-line source cleared (the
fetched geometry is never set), and the stations data is set from the
stations fetch exactly as it would be on a shapes-fetch failure — the
stations block runs independently. -/
theorem initLineDataV2_shape_invalid (geo : List (List (Option Pt)))
    (stationsFetch : Option (List Pt))
    (h : (summarizeLineGeojson geo).coordCount < 2) :
    (summarizeLineGeojson geo).bbox = none ∧
    (initLineDataV2 (some geo) stationsFetch).lineData = LineSetState.cleared ∧
    (initLineDataV2 (some geo) stationsFetch).stationsData = stationsFetch ∧
    (initLineDataV2 none stationsFetch).stationsData = stationsFetch := by
  have h' : ((geo.headD []).filterMap id).length < 2 := h
  have hb : (summarizeLineGeojson geo).bbox = none := by
    show (if 2 ≤ ((geo.headD []).filterMap id).length then
        foldBounds ((geo.headD []).filterMap id) else none) = none
    rw [if_neg (by omega)]
  refine ⟨hb, ?_, ?_, ?_⟩
  · simp only [initLineDataV2]
    rw [if_pos (Or.inr hb)]
  · cases stationsFetch <;> rfl
  · cases stationsFetch <;> rfl

/-- Witness for C7: a single feature holding one finite coordinate and one
malformed entry (1 valid coordinate in total). -/
theorem initLineDataV2_shape_invalid_witness :
    (summarizeLineGeojson [[some ((139 : ℚ), (35 : ℚ)), none]]).bbox = none ∧
    (initLineDataV2 (some [[some ((139 : ℚ), (35 : ℚ)), none]])
        (some [((139 : ℚ), (35 : ℚ))])).lineData = LineSetState.cleared ∧
    (initLineDataV2 (some [[some ((139 : ℚ), (35 : ℚ)), none]])
        (some [((139 : ℚ), (35 : ℚ))])).stationsData = some [((139 : ℚ), (35 : ℚ))] ∧
    (initLineDataV2 none (some [((139 : ℚ), (35 : ℚ))])).stationsData =
      some [((139 : ℚ), (35 : ℚ))] :=
  initLineDataV2_shape_invalid [[some ((139 : ℚ), (35 : ℚ)), none]]
    (some [((139 : ℚ), (35 : ℚ))]) (by decide)

/-! ### Admin dwell-time validation (C8) -/

example : parseIntJS "30" = some 30 := by decide
example : parseIntJS "-5" = some (-5) := by decide
example : parseIntJS "abc" = none := by decide
example : parseIntJS "12px" = some 12 := by decide
set_option maxRecDepth 20000 in
example : parseIntJS "9007199254740993" = some 9007199254740992 := by decide

set_option maxRecDepth 20000 in
example : parseIntJS (String.mk ('1' :: List.replicate 309 '0')) = none := by decide

/-- C8: `saveStation` issues the PUT (with the station's rank and the parsed
integer dwell time) iff `dwell_time` parses to a finite integer ≥ 0;
otherwise it records the error status and the action carries no request. -/
theorem saveStation_validates (st : StationForm)
    (hr : st.rank = "S" ∨ st.rank = "A" ∨ st.rank = "B") :
    ((∃ v, parseIntJS st.dwell_time = some v ∧ 0 ≤ v) ↔
        saveStation st ≠ SaveAction.errorStatus "dwell_time must be >= 0") ∧
    (∀ v, parseIntJS st.dwell_time = some v → 0 ≤ v →
        saveStation st = SaveAction.putRequest st.id st.rank v ∧
          (st.rank = "S" ∨ st.rank = "A" ∨ st.rank = "B")) := by
  cases hp : parseIntJS st.dwell_time with
  | none =>
    have hs : saveStation st = SaveAction.errorStatus "dwell_time must be >= 0" := by
      unfold saveStation
      rw [hp]
    refine ⟨⟨?_, ?_⟩, ?_⟩
    · rintro ⟨v, hv, -⟩
      exact Option.noConfusion hv
    · intro hne
      exact absurd hs hne
    · intro v hv
      exact Option.noConfusion hv
  | some v0 =>
    by_cases hv0 : v0 < 0
    · have hs : saveStation st = SaveAction.errorStatus "dwell_time must be >= 0" := by
        unfold saveStation
        rw [hp]
        exact if_pos hv0
      refine ⟨⟨?_, ?_⟩, ?_⟩
      · rintro ⟨v, hv, hge⟩
        have hveq := Option.some.inj hv
        exact absurd hge (by omega)
      · intro hne
        exact absurd hs hne
      · intro v hv hge
        have hveq := Option.some.inj hv
        exact absurd hge (by omega)
    · have hs : saveStation st = SaveAction.putRequest st.id st.rank v0 := by
        unfold saveStation
        rw [hp]
        exact if_neg hv0
      refine ⟨⟨?_, ?_⟩, ?_⟩
      · intro _
        rw [hs]
        intro heq
        exact SaveAction.noConfusion heq
      · intro _
        exact ⟨v0, rfl, by omega⟩
      · intro v hv hge
        have hveq := Option.some.inj hv
        subst hveq
        exact ⟨hs, hr⟩

/-- Witness for C8: saving rank "S" with dwell string `"30"` issues the PUT
with dwell 30. -/
theorem saveStation_validates_witness :
    saveStation ⟨"sta1", "S", "30"⟩ = SaveAction.putRequest "sta1" "S" 30 ∧
      (("S" : String) = "S" ∨ ("S" : String) = "A" ∨ ("S" : String) = "B") :=
  (saveStation_validates ⟨"sta1", "S", "30"⟩ (Or.inl rfl)).2 30 (by decide) (by decide)

/-! ### Polling update key-set invariant (C10) -/

theorem keys_upsert_present {m : TrainMap} {now : ℚ} {p : Position}
    (h : p.train_number ∈ m.map Prod.fst) :
    (upsertTrain m now p).map Prod.fst = m.map Prod.fst := by
  unfold upsertTrain
  obtain ⟨kv, hkv, hfst⟩ := List.mem_map.mp h
  rw [if_pos (List.any_eq_true.mpr ⟨kv, hkv, by simp [hfst]⟩), List.map_map]
  refine List.map_congr_left fun kv' _ => ?_
  by_cases hk : kv'.1 = p.train_number
  · simp [Function.comp, hk]
  · simp [Function.comp, hk]

theorem keys_upsert_absent {m : TrainMap} {now : ℚ} {p : Position}
    (h : p.train_number ∉ m.map Prod.fst) :
    (upsertTrain m now p).map Prod.fst = m.map Prod.fst ++ [p.train_number] := by
  unfold upsertTrain
  have hany : ¬(m.any (fun kv => kv.1 = p.train_number)) = true := by
    intro hany
    obtain ⟨kv, hkv, heq⟩ := List.any_eq_true.mp hany
    exact h (List.mem_map.mpr ⟨kv, hkv, by simpa using heq⟩)
  rw [if_neg hany, List.map_append]
  rfl

theorem mem_keys_upsert {m : TrainMap} {now : ℚ} {p : Position} (k : String) :
    k ∈ (upsertTrain m now p).map Prod.fst ↔
      k ∈ m.map Prod.fst ∨ k = p.train_number := by
  by_cases h : p.train_number ∈ m.map Prod.fst
  · rw [keys_upsert_present h]
    constructor
    · exact Or.inl
    · rintro (hk | rfl)
      · exact hk
      · exact h
  · rw [keys_upsert_absent h]
    simp

theorem nodup_keys_upsert {m : TrainMap} {now : ℚ} {p : Position}
    (h : (m.map Prod.fst).Nodup) :
    ((upsertTrain m now p).map Prod.fst).Nodup := by
  by_cases hin : p.train_number ∈ m.map Prod.fst
  · rw [keys_upsert_present hin]
    exact h
  · rw [keys_upsert_absent hin]
    exact (List.perm_append_singleton _ _).nodup_iff.mpr (List.nodup_cons.mpr ⟨hin, h⟩)

theorem processPositions_cons (m : TrainMap) (now : ℚ) (p : Position) (ps : List Position) :
    processPositions m now (p :: ps) =
      processPositions (if qualifies p then upsertTrain m now p else m) now ps := rfl

theorem activeKeys_cons (p : Position) (ps : List Position) :
    activeKeys (p :: ps) =
      if qualifies p then p.train_number :: activeKeys ps else activeKeys ps := by
  unfold activeKeys
  rw [List.filter_cons]
  by_cases hq : qualifies p
  · rw [if_pos hq, if_pos hq, List.map_cons]
  · rw [if_neg hq, if_neg hq]

theorem mem_keys_process (now : ℚ) (ps : List Position) : ∀ (m : TrainMap) (k : String),
    k ∈ (processPositions m now ps).map Prod.fst ↔
      k ∈ m.map Prod.fst ∨ k ∈ activeKeys ps := by
  induction ps with
  | nil =>
    intro m k
    simp [processPositions, activeKeys]
  | cons p ps ih =>
    intro m k
    rw [processPositions_cons, activeKeys_cons]
    by_cases hq : qualifies p
    · rw [if_pos hq, if_pos hq, ih, mem_keys_upsert, List.mem_cons]
      tauto
    · rw [if_neg hq, if_neg hq, ih]

theorem nodup_keys_process (now : ℚ) (ps : List Position) : ∀ m : TrainMap,
    (m.map Prod.fst).Nodup → ((processPositions m now ps).map Prod.fst).Nodup := by
  induction ps with
  | nil => intro m h; exact h
  | cons p ps ih =>
    intro m h
    rw [processPositions_cons]
    by_cases hq : qualifies p
    · rw [if_pos hq]
      exact ih _ (nodup_keys_upsert h)
    · rw [if_neg hq]
      exact ih _ h

theorem keys_filter_fst (pred : String → Bool) : ∀ m : TrainMap,
    (m.filter fun kv => pred kv.1).map Prod.fst = (m.map Prod.fst).filter pred := by
  intro m
  induction m with
  | nil => rfl
  | cons kv m ih => by_cases h : pred kv.1 <;> simp [List.filter_cons, h, ih]

/-- C10: after one completed polling update, the train-position map's key
set is exactly the set of `train_number`s of the filtered positions that
carry a finite latitude and longitude, with no duplicate keys — every train
absent from the response is deleted, every qualifying train has exactly one
entry. -/
theorem fetchAndUpdate_keys (m : TrainMap) (now : ℚ) (ps : List Position)
    (hnd : (m.map Prod.fst).Nodup) :
    ((fetchAndUpdate m now ps).map Prod.fst).Nodup ∧
      ((fetchAndUpdate m now ps).map Prod.fst).toFinset = (activeKeys ps).toFinset := by
  have hkeys : (fetchAndUpdate m now ps).map Prod.fst =
      ((processPositions m now ps).map Prod.fst).filter
        (fun k => decide (k ∈ activeKeys ps)) :=
    keys_filter_fst (fun k => decide (k ∈ activeKeys ps)) (processPositions m now ps)
  constructor
  · rw [hkeys]
    exact List.Nodup.filter _ (nodup_keys_process now ps m hnd)
  · ext k
    simp only [List.mem_toFinset, hkeys, List.mem_filter, mem_keys_process,
      decide_eq_true_eq]
    tauto

/-- Witness for C10: starting from a map holding train `"7G"`, a response
whose only qualifying train is `"8H"` (a second `"8H"`-less entry has no
finite location) leaves exactly the key `"8H"`. -/
theorem fetchAndUpdate_keys_witness :
    ((fetchAndUpdate
        [("7G", ⟨(0, 0), (0, 0), 0, ⟨"7G", 0, false, "good"⟩⟩)] 5
        [⟨"8H", some ⟨some 35, some 139⟩, "stopped", some 60⟩,
         ⟨"9K", some ⟨none, some 139⟩, "running", none⟩]).map Prod.fst).Nodup ∧
      ((fetchAndUpdate
        [("7G", ⟨(0, 0), (0, 0), 0, ⟨"7G", 0, false, "good"⟩⟩)] 5
        [⟨"8H", some ⟨some 35, some 139⟩, "stopped", some 60⟩,
         ⟨"9K", some ⟨none, some 139⟩, "running", none⟩]).map Prod.fst).toFinset =
      (activeKeys
        [⟨"8H", some ⟨some 35, some 139⟩, "stopped", some 60⟩,
         ⟨"9K", some ⟨none, some 139⟩, "running", none⟩]).toFinset :=
  fetchAndUpdate_keys
    [("7G", ⟨(0, 0), (0, 0), 0, ⟨"7G", 0, false, "good"⟩⟩)] 5
    [⟨"8H", some ⟨some 35, some 139⟩, "stopped", some 60⟩,
     ⟨"9K", some ⟨none, some 139⟩, "running", none⟩]
    (by decide)

end NowTrain
